import Mathlib

/-!
Verification development for the mgrep PreToolUse hook
(`plugins/mgrep/hooks/mgrep_hook.py`).

The Python source is shallowly embedded below.  JSON-decoded Python values
become `PyValue`; `pathlib.Path` values become `PPath` (an absolute flag plus a
list of components, with `.`/empty components dropped at construction, exactly
as `pathlib` does); the filesystem, environment and subprocess boundaries of
`main` become oracle fields of an `Env` record, and `main` itself becomes the
pure function `mgrepMain : Env → Except String RunResult`, whose `error` case
is an exception propagating out of `main` uncaught (a process crash).

Modelling simplifications (each noted at its definition): `resolve()` is
lexical normalization (no symlink following), `str.strip`/`str.splitlines`/
`str.isdigit` use their ASCII behaviour, and `repr` of a string is modelled
for ordinary printable strings.
-/

/-- Values of the loosely typed, JSON-decoded Python payload. -/
inductive PyValue where
  | none
  | bool (b : Bool)
  | int (n : Int)
  | str (s : String)
  | list (xs : List PyValue)
  | dict (entries : List (String × PyValue))

/-- Python `dict.get`: the value stored at `k`, if any (keys are unique, the
first binding wins). -/
def pylookup (k : String) : List (String × PyValue) → Option PyValue
  | [] => Option.none
  | (k', v) :: rest => if k = k' then some v else pylookup k rest

/-- Python truthiness (`bool(x)`) of a payload value. -/
def pyTruthy : PyValue → Bool
  | .none => false
  | .bool b => b
  | .int n => n ≠ 0
  | .str s => s ≠ ""
  | .list xs => !xs.isEmpty
  | .dict xs => !xs.isEmpty

/-! String utilities, defined over `List Char` so that everything reduces. -/

/-- Whitespace characters removed by Python's `str.strip()` (ASCII part). -/
def isPySpace (c : Char) : Bool :=
  c = ' ' || c = '\t' || c = '\n' || c = '\x0d' || c = '\x0b' || c = '\x0c'

/-- Python `str.strip()` (ASCII whitespace). -/
def pyStrip (s : String) : String :=
  String.mk (((s.data.dropWhile isPySpace).reverse.dropWhile isPySpace).reverse)

/-- Python `str.startswith(pre)`. -/
def strStartsWith (s pre : String) : Bool :=
  pre.data.isPrefixOf s.data

/-- Python slicing `s[n:]`. -/
def strDrop (s : String) (n : Nat) : String :=
  String.mk (s.data.drop n)

/-- Python `str.lower()` (ASCII). -/
def pyLower (s : String) : String :=
  String.mk (s.data.map Char.toLower)

/-- Python `str.isdigit()` (ASCII digits). -/
def pyIsDigit (s : String) : Bool :=
  !s.data.isEmpty && s.data.all Char.isDigit

/-- Numeric value of a digit string (`int(s)` for `s.isdigit()`). -/
def digitsToInt (s : String) : Int :=
  Int.ofNat (s.data.foldl (fun n c => 10 * n + (c.toNat - '0'.toNat)) 0)

/-- Python `sep.join(parts)`. -/
def joinSep (sep : String) : List String → String
  | [] => ""
  | [x] => x
  | x :: xs => x ++ sep ++ joinSep sep xs

/-- Split a character list at every occurrence of `sep`, keeping empty chunks
(the splitting `pathlib` performs on `/`). -/
def splitChar (sep : Char) : List Char → List (List Char)
  | [] => [[]]
  | c :: rest =>
    match splitChar sep rest with
    | [] => [[]]
    | r :: rs => if c = sep then [] :: r :: rs else (c :: r) :: rs

/-- Helper for `pySplitlines`: accumulate the current (reversed) line. -/
def splitlinesGo (cur : List Char) : List Char → List String
  | [] => if cur.isEmpty then [] else [String.mk cur.reverse]
  | '\x0d' :: '\n' :: rest => String.mk cur.reverse :: splitlinesGo [] rest
  | '\x0d' :: rest => String.mk cur.reverse :: splitlinesGo [] rest
  | '\n' :: rest => String.mk cur.reverse :: splitlinesGo [] rest
  | c :: rest => splitlinesGo (c :: cur) rest

/-- Python `str.splitlines()` (modelling the `\n`, `\r`, `\r\n` boundaries). -/
def pySplitlines (s : String) : List String :=
  splitlinesGo [] s.data

/-- Escapes of Python `repr` for a printable string. -/
def pyReprEscape (c : Char) : List Char :=
  if c = '\\' then ['\\', '\\']
  else if c = '\'' then ['\\', '\'']
  else if c = '\n' then ['\\', 'n']
  else if c = '\x0d' then ['\\', 'r']
  else if c = '\t' then ['\\', 't']
  else [c]

/-- Python `repr` of a string (modelled for ordinary printable strings:
single-quoted with standard escapes). -/
def pyRepr (s : String) : String :=
  "'" ++ String.mk (s.data.flatMap pyReprEscape) ++ "'"

/-! The path model: `pathlib.PurePosixPath` as an absolute flag plus clean
components. -/

/-- A POSIX path: `pathlib` drops `.` and empty components at construction and
keeps `..`; `parts` is that component list. -/
structure PPath where
  abs : Bool
  parts : List String
deriving DecidableEq, Repr

/-- `pathlib.PurePosixPath(s)`: split on `/`, drop empty and `.` components. -/
def fromString (s : String) : PPath :=
  ⟨strStartsWith s "/",
   ((splitChar '/' s.data).map String.mk).filter (fun c => c != "" && c != ".")⟩

/-- `as_posix()`: render a path back to text (`.` for the empty relative
path, exactly as `pathlib` does). -/
def toPosix (p : PPath) : String :=
  if p.abs then "/" ++ joinSep "/" p.parts
  else if p.parts.isEmpty then "." else joinSep "/" p.parts

/-- Python `Path` division `p / q`: an absolute right operand replaces the
left one. -/
def joinP (p q : PPath) : PPath :=
  if q.abs then q else ⟨p.abs, p.parts ++ q.parts⟩

/-- One step of lexical `..`-normalization (`..` pops, `.`/empty vanish). -/
def resolveStep (acc : List String) (c : String) : List String :=
  if c = ".." then acc.dropLast
  else if c = "." || c = "" then acc
  else acc ++ [c]

/-- Normalize a component list (`/..` at the root stays at the root). -/
def normParts (l : List String) : List String :=
  l.foldl resolveStep []

/-- `Path.resolve()` in a symlink-free world: make absolute against `cwd`,
then normalize `..` lexically. -/
def presolve (cwd : PPath) (p : PPath) : PPath :=
  ⟨true, normParts ((if p.abs then [] else cwd.parts) ++ p.parts)⟩

/-- The filesystem root (used as the irrelevant `cwd` of `resolve()` calls on
paths that are already absolute). -/
def rootPath : PPath := ⟨true, []⟩

/-- `Path.relative_to(base)`: succeeds exactly when `base`'s components are a
lexical prefix (pathlib raises `ValueError` otherwise, modelled as `none`). -/
def relativeTo (p base : PPath) : Option PPath :=
  if p.abs = base.abs && base.parts.isPrefixOf p.parts then
    some ⟨false, p.parts.drop base.parts.length⟩
  else Option.none

/-- `Path.expanduser()`: replace a leading `~` component with the home
directory (the `~user` form is not modelled). -/
def expanduserP (home : PPath) (p : PPath) : PPath :=
  if p.abs then p
  else match p.parts with
    | "~" :: rest => ⟨home.abs, home.parts ++ rest⟩
    | _ => p

/-! Path-token extraction (`extract_paths`, source lines 134-163). -/

/-- The regex `^(?P<path>.+?)(?=:\d)`: the shortest non-empty prefix that is
followed by a colon and a digit.  `acc` holds the (reversed) consumed prefix;
`.` does not match a newline, so scanning stops at one. -/
def pathTokenAux (acc : List Char) : List Char → Option (List Char)
  | [] => Option.none
  | c :: rest =>
    if c = ':' && !acc.isEmpty && (match rest with | d :: _ => d.isDigit | [] => false) then
      some acc.reverse
    else if c = '\n' then Option.none
    else pathTokenAux (c :: acc) rest

/-- The raw path token of a result line: the regex match, else the text before
the first colon; an empty candidate counts as no token (`if not raw_path`). -/
def rawToken (line : List Char) : Option (List Char) :=
  match pathTokenAux [] line with
  | some t => some t
  | Option.none =>
    if line.contains ':' then
      match line.takeWhile (fun c => c ≠ ':') with
      | [] => Option.none
      | t => some t
    else Option.none

/-- The stripped token of a line (`raw_path.strip()`), when a token exists. -/
def cleanedToken (line : String) : Option String :=
  (rawToken line.data).map (fun t => pyStrip (String.mk t))

/-- Strip a leading `./` (or a bare leading `.`), keeping `.` when nothing
remains (source lines 145-150). -/
def dotStrip (cleaned : String) : String :=
  if strStartsWith cleaned "./" then
    (if strDrop cleaned 2 = "" then "." else strDrop cleaned 2)
  else if strStartsWith cleaned "." then
    (if strDrop cleaned 1 = "" then "." else strDrop cleaned 1)
  else cleaned

/-- `os.path.isabs` on POSIX: a leading slash. -/
def isAbsStr (s : String) : Bool :=
  strStartsWith s "/"

/-- The drive-letter test `re.match(r"^[A-Za-z]:", rel)`. -/
def driveStr (s : String) : Bool :=
  match s.data with
  | a :: b :: _ => a.isAlpha && b = ':'
  | _ => false

/-- The `abs_path` value of `extract_paths` (source lines 144-155): strip the
leading dot form, then either take the token as a path directly (absolute or
drive-letter form) or resolve it against the workspace. -/
def extractAbsP (cleaned : String) (ws : PPath) : PPath :=
  if isAbsStr (dotStrip cleaned) || driveStr (dotStrip cleaned) then
    fromString (dotStrip cleaned)
  else presolve rootPath (joinP ws (fromString (dotStrip cleaned)))

/-- The `rel_path` value of `extract_paths` (source lines 157-160):
workspace-relative POSIX form, or the absolute form when relativization
fails. -/
def extractRelStr (cleaned : String) (ws : PPath) : String :=
  match relativeTo (extractAbsP cleaned ws) ws with
  | some rr => toPosix rr
  | Option.none => toPosix (extractAbsP cleaned ws)

/-- Body of `extract_paths` after the token has been found and stripped
(source lines 144-163): `display_path` keeps a dotted token verbatim. -/
def extractFromCleaned (cleaned : String) (ws : PPath) :
    Option String × Option String × Option String :=
  (some (if strStartsWith cleaned "." then cleaned else extractRelStr cleaned ws),
   some (extractRelStr cleaned ws),
   some (toPosix (extractAbsP cleaned ws)))

/-- `extract_paths(line, workspace)`: `(display_path, relative_path,
absolute_path)`, all `none` when no token can be located. -/
def extractPaths (line : String) (ws : PPath) :
    Option String × Option String × Option String :=
  match cleanedToken line with
  | Option.none => (Option.none, Option.none, Option.none)
  | some cleaned => extractFromCleaned cleaned ws

/-! Shell-style wildcard matching (`fnmatch.fnmatch`; `os.path.normcase` is
the identity on POSIX). -/

/-- Scan for the closing `]` of a character class, returning the class body
and the rest of the pattern. -/
def findClose (acc : List Char) : List Char → Option (List Char × List Char)
  | [] => Option.none
  | ']' :: rest => some (acc.reverse, rest)
  | c :: rest => findClose (c :: acc) rest

/-- Parse a character class after the opening `[`: an optional leading `!`
negates, an immediately following `]` is a literal member. -/
def parseClass (cs : List Char) : Option (Bool × List Char × List Char) :=
  match cs with
  | '!' :: ']' :: rest => (findClose [']'] rest).map (fun p => (true, p.1, p.2))
  | '!' :: rest => (findClose [] rest).map (fun p => (true, p.1, p.2))
  | ']' :: rest => (findClose [']'] rest).map (fun p => (false, p.1, p.2))
  | rest => (findClose [] rest).map (fun p => (false, p.1, p.2))

/-- Membership of a character in a class body (`a-b` ranges; a `-` without
both endpoints is literal). -/
def inClass (c : Char) : List Char → Bool
  | a :: '-' :: b :: rest => (a ≤ c && c ≤ b) || inClass c rest
  | a :: rest => c = a || inClass c rest
  | [] => false

/-- The wildcard matcher behind `fnmatch.fnmatch`: `*` matches any sequence
(including `/`), `?` any single character, `[...]`/`[!...]` classes; an
unclosed `[` is literal. -/
def globMatchChars : List Char → List Char → Bool
  | [], [] => true
  | [], _ :: _ => false
  | '*' :: ps, [] => globMatchChars ps []
  | '*' :: ps, c :: cs => globMatchChars ps (c :: cs) || globMatchChars ('*' :: ps) cs
  | '?' :: _, [] => false
  | '?' :: ps, _ :: cs => globMatchChars ps cs
  | '[' :: ps, c :: cs =>
    (match parseClass ps with
     | some (neg, body, rest) => (inClass c body != neg) && globMatchChars rest cs
     | Option.none => (c = '[') && globMatchChars ps cs)
  | _ :: _, [] => false
  | p :: ps, c :: cs => (p = c) && globMatchChars ps cs
termination_by ps cs => (cs.length, ps.length)

/-- `fnmatch.fnmatch(name, pattern)`. -/
def fnmatchB (name pat : String) : Bool :=
  globMatchChars pat.data name.data

/-! Glob filtering (`filter_by_glob`, source lines 165-177). -/

/-- Python falsiness of an optional string (`not rel_path`). -/
def optFalsy : Option String → Bool
  | Option.none => true
  | some s => s = ""

/-- Whether one line survives glob filtering: a line without an extractable
path is kept; otherwise some pattern must match its relative or absolute
path (`val and fnmatch.fnmatch(val, pattern)`). -/
def keepLine (patterns : List String) (ws : PPath) (line : String) : Bool :=
  match extractPaths line ws with
  | (_, relPath, absPath) =>
    if optFalsy relPath && optFalsy absPath then true
    else patterns.any (fun pat =>
      [relPath, absPath].any (fun v =>
        match v with
        | some s => !(s = "") && fnmatchB s pat
        | Option.none => false))

/-- `filter_by_glob`: pass everything through when no patterns are
configured, otherwise keep the surviving lines in order. -/
def filterByGlob (lines : List String) (patterns : List String) (ws : PPath) :
    List String :=
  if patterns.isEmpty then lines else lines.filter (keepLine patterns ws)

/-! Response text (`build_payload`, source lines 179-199). -/

/-- Python `x or y` on an optional string against a string default. -/
def pyOrS (x : Option String) (y : String) : String :=
  match x with
  | some s => if s = "" then y else s
  | Option.none => y

/-- The best display value of a line in `paths` mode:
`display_path or rel_path or abs_path or line`. -/
def bestValue (ws : PPath) (line : String) : String :=
  match extractPaths line ws with
  | (d, r, a) => pyOrS d (pyOrS r (pyOrS a line))

/-- The `seen` accumulation loop of `paths` mode: first occurrences of each
best display value, in order. -/
def pathsSeen (ws : PPath) (lines : List String) : List String :=
  lines.foldl (fun seen line =>
    let value := bestValue ws line
    if value ∈ seen then seen else seen ++ [value]) []

/-- `build_payload`: header plus either a no-match sentence, the deduplicated
path list, or the raw lines. -/
def buildPayload (lines : List String) (pat scopeLabel outputMode : String)
    (ws : PPath) : String :=
  let header := "MGrep semantic search for " ++ pyRepr pat ++ " in " ++ scopeLabel
  if lines.isEmpty then header ++ "\n" ++ "No semantic matches found."
  else
    let body := if outputMode = "paths" then joinSep "\n" (pathsSeen ws lines)
                else joinSep "\n" lines
    header ++ "\n" ++ body

/-! `parse_max_results` (source lines 125-132). -/

/-- Clamp to `[1,100]`: `max(1, min(100, value))`. -/
def pyClamp (v : Int) : Int :=
  max 1 (min 100 v)

/-- The usable numeric reading of one alias value: an `int` (Python `bool` is
an `int`: `True` reads as 1, `False` as 0) or a digit-only string. -/
def usableValue : PyValue → Option Int
  | .int n => some n
  | .bool b => some (if b then 1 else 0)
  | .str s => if pyIsDigit s then some (digitsToInt s) else Option.none
  | _ => Option.none

/-- The first usable value among the three alias keys, in priority order. -/
def firstUsable (ti : List (String × PyValue)) : Option Int :=
  match (pylookup "--max-count" ti).bind usableValue with
  | some v => some v
  | Option.none =>
    match (pylookup "-m" ti).bind usableValue with
    | some v => some v
    | Option.none => (pylookup "max_count" ti).bind usableValue

/-- `parse_max_results`: clamp the first usable alias value; fall back to the
configured default (which the code does not clamp). -/
def parseMaxResults (ti : List (String × PyValue)) (defaultMax : Int) : Int :=
  match firstUsable ti with
  | some v => pyClamp v
  | Option.none => defaultMax

/-! The external command (`main` lines 267-276, `run_mgrep` lines 201-219). -/

/-- Argument-vector construction of `main`: prefix, `search`, optional `-i`,
`-m` when `max_results` is truthy, optional `--store`, the pattern, and the
scope argument when truthy. -/
def buildCommand (binCmd : List String) (caseInsensitive : Bool)
    (maxResults : Int) (storeOverride : Option String) (pat : String)
    (pathArg : Option String) : List String :=
  binCmd ++ ["search"]
    ++ (if caseInsensitive then ["-i"] else [])
    ++ (if maxResults ≠ 0 then ["-m", toString maxResults] else [])
    ++ (match storeOverride with
        | some s => if s ≠ "" then ["--store", s] else []
        | Option.none => [])
    ++ [pat]
    ++ (match pathArg with
        | some p => if p ≠ "" then [p] else []
        | Option.none => [])

/-- The possible outcomes of `subprocess.run`: completion with an exit code
and captured output, the two exceptions the code catches
(`FileNotFoundError`, `subprocess.TimeoutExpired`), or any other exception —
e.g. `PermissionError` when the binary named by the `MGREP_BIN` override
exists but is not executable — which the code does not catch. -/
inductive SubprocOutcome where
  | notFound
  | timedOut
  | raised (exn : String)
  | completed (returncode : Int) (stdout : String) (stderr : String)

/-- `run_mgrep`: the `except` clause on source line 211 catches only
`FileNotFoundError` and `TimeoutExpired`, turning them (and any non-zero exit
code) into the unavailable signal `none`; exit code 0 returns the captured
stdout verbatim; every other exception propagates to the caller, modelled as
`Except.error`. -/
def runMgrep : SubprocOutcome → Except String (Option String)
  | .notFound => .ok Option.none
  | .timedOut => .ok Option.none
  | .raised e => .error e
  | .completed rc out _ => .ok (if rc ≠ 0 then Option.none else some out)

/-! Request parsing helpers (`normalize_globs`, `is_disabled`,
`resolve_workspace`, `resolve_scope_path`, scope description). -/

/-- `normalize_globs`: a string becomes its stripped singleton; an iterable
keeps its stripped, non-empty string entries (iterating a dict yields its
keys); anything else normalizes to no patterns. -/
def normalizeGlobs : Option PyValue → List String
  | some (.str s) => (fun p => if p = "" then [] else [p]) (pyStrip s)
  | some (.list xs) =>
    xs.filterMap (fun e =>
      match e with
      | .str s => (fun t => if t = "" then Option.none else some t) (pyStrip s)
      | _ => Option.none)
  | some (.dict entries) =>
    entries.filterMap (fun kv =>
      (fun t => if t = "" then Option.none else some t) (pyStrip kv.1))
  | _ => []

/-- `is_disabled`: the disable variable is set, non-empty, and lowercases to
one of the recognized switch values. -/
def isDisabled : Option String → Bool
  | Option.none => false
  | some s => s ≠ "" && (pyLower s ∈ (["1", "true", "yes", "on"] : List String))

/-- `main`'s `tool_name` guard, `payload.get("tool_name") != "Grep"` written
positively. -/
def toolNameIsGrep (payload : List (String × PyValue)) : Bool :=
  match pylookup "tool_name" payload with
  | some (.str s) => s = "Grep"
  | _ => false

/-- `output_mode`: `tool_input.get("output_mode") or "content"`, coerced to
`"content"` unless it is exactly the string `"paths"` or `"content"`. -/
def outputModeOf (ti : List (String × PyValue)) : String :=
  match pylookup "output_mode" ti with
  | some (.str s) => if s = "paths" then "paths" else "content"
  | _ => "content"

/-- The boundary of `main` with the process's surroundings: parsed standard
input, environment variables, the filesystem oracles, and the subprocess
outcome.  Binary discovery (`resolve_mgrep_command`) and the token-file check
are excluded collaborators per the spec, so they appear as oracle results. -/
structure Env where
  stdinPayload : Option (List (String × PyValue))
  home : PPath
  cwdPath : PPath
  pathExists : PPath → Bool
  disableVar : Option String
  tokenFileExists : Bool
  mgrepCommand : Option (List String)
  storeOverride : Option String
  defaultMaxResults : Int
  subprocess : List String → SubprocOutcome

/-- `resolve_workspace`: an existing `cwd` payload string wins (expanded and
resolved); otherwise the process working directory, resolved. -/
def resolveWorkspace (env : Env) (payload : List (String × PyValue)) : PPath :=
  match pylookup "cwd" payload with
  | some (.str s) =>
    if pyStrip s ≠ "" then
      let cwdP := expanduserP env.home (fromString s)
      if env.pathExists cwdP then presolve env.cwdPath cwdP
      else presolve rootPath env.cwdPath
    else presolve rootPath env.cwdPath
  | _ => presolve rootPath env.cwdPath

/-- `resolve_scope_path`: a non-empty `path` string is expanded and, when
relative, resolved against the workspace; otherwise the scope is the
workspace. -/
def resolveScopePath (ti : List (String × PyValue)) (ws : PPath) (home : PPath) :
    PPath :=
  match pylookup "path" ti with
  | some (.str s) =>
    if pyStrip s ≠ "" then
      let candidate := expanduserP home (fromString s)
      if candidate.abs then candidate else presolve rootPath (joinP ws candidate)
    else ws
  | _ => ws

/-- `describe_scope`: the workspace-relative form, or the absolute form when
relativization fails. -/
def describeScope (scope ws : PPath) : String :=
  match relativeTo scope ws with
  | some rel => (fun t => if t = "" then "." else t) (toPosix rel)
  | Option.none => toPosix scope

/-- `compute_cli_path_arg`: no argument when the scope is the workspace
itself, else the relative (or, outside the workspace, absolute) form. -/
def computeCliPathArg (scope ws : PPath) : Option String :=
  match relativeTo scope ws with
  | some rel =>
    (fun t => if t = "" || t = "." then Option.none else some t) (toPosix rel)
  | Option.none => some (toPosix scope)

/-! The response envelope and `main` itself. -/

/-- The JSON documents the hook can emit. -/
inductive Json where
  | str (s : String)
  | obj (fields : List (String × Json))

/-- The document `main` prints on standard error (source lines 287-294): the
four response fields nested under a single `hookSpecificOutput` key. -/
def hookJson (payloadText : String) : Json :=
  .obj [("hookSpecificOutput", .obj
    [("hookEventName", .str "PreToolUse"),
     ("permissionDecision", .str "deny"),
     ("permissionDecisionReason", .str "Semantic search completed by mgrep"),
     ("additionalContext", .str payloadText)])]

/-- Modelled from the spec's section 3 wording: a document matches the
`HookResponse` shape when it is exactly the four-field object
`hookEventName: "PreToolUse"`, `permissionDecision: "deny"`,
`permissionDecisionReason: string`, `additionalContext: string`. -/
def specHookResponseShape : Json → Bool
  | .obj [("hookEventName", .str "PreToolUse"),
          ("permissionDecision", .str "deny"),
          ("permissionDecisionReason", .str _),
          ("additionalContext", .str _)] => true
  | _ => false

/-- The shape the code actually emits: a single `hookSpecificOutput` field
holding the four-field `HookResponse` object. -/
def wrappedHookShape : Json → Bool
  | .obj [("hookSpecificOutput", inner)] => specHookResponseShape inner
  | _ => false

/-- Everything `main` decides before running the external command
(source lines 225-276): the argument vector plus the request data the
response stage needs. -/
structure Prepared where
  command : List String
  patternUsed : String
  scopeLabel : String
  outputMode : String
  globPatterns : List String
  workspace : PPath

/-- The guard chain and request normalization of `main` (lines 225-276): any
failed precondition skips (`none`), mirroring the early `return 0`s. -/
def stage1 (env : Env) : Option Prepared :=
  match env.stdinPayload with
  | Option.none => Option.none
  | some payload =>
    if payload.isEmpty then Option.none
    else if !toolNameIsGrep payload then Option.none
    else match pylookup "tool_input" payload with
    | some (.dict ti) =>
      (match pylookup "pattern" ti with
       | some (.str p) =>
         if pyStrip p = "" then Option.none
         else if isDisabled env.disableVar then Option.none
         else if !env.tokenFileExists then Option.none
         else match env.mgrepCommand with
         | Option.none => Option.none
         | some binCmd =>
           if binCmd.isEmpty then Option.none
           else
             let ws := resolveWorkspace env payload
             let scope := resolveScopePath ti ws env.home
             let scopeLabel := describeScope scope ws
             let pathArg := computeCliPathArg scope ws
             let caseInsensitive :=
               pyTruthy ((pylookup "-i" ti).getD .none)
               || pyTruthy ((pylookup "--ignore-case" ti).getD .none)
             let maxResults := parseMaxResults ti env.defaultMaxResults
             let om := outputModeOf ti
             let globPatterns := normalizeGlobs (pylookup "glob" ti)
             some ⟨buildCommand binCmd caseInsensitive maxResults
                     env.storeOverride p pathArg,
                   p, scopeLabel, om, globPatterns, ws⟩
       | _ => Option.none)
    | _ => Option.none

/-- The observable outcome of one hook invocation: the process exit code, the
JSON document written to standard error (if any), the external command that
was invoked (if any), and the pattern the request carried past parsing. -/
structure RunResult where
  exitCode : Int
  output : Option Json
  invoked : Option (List String)
  patternUsed : Option String

/-- `main` (source lines 225-297): prepare, run the external command, filter
and shape its output, and either emit the deny envelope with exit code 2 or
skip with exit code 0.  `main` has no handler of its own, so an exception
escaping `run_mgrep` propagates (the `Except.error` case: the process dies
with a traceback instead of producing a `RunResult`). -/
def mgrepMain (env : Env) : Except String RunResult :=
  match stage1 env with
  | Option.none => .ok ⟨0, Option.none, Option.none, Option.none⟩
  | some prep =>
    match runMgrep (env.subprocess prep.command) with
    | .error e => .error e
    | .ok Option.none =>
      .ok ⟨0, Option.none, some prep.command, some prep.patternUsed⟩
    | .ok (some stdout) =>
      let lines := (pySplitlines stdout).filter (fun l => pyStrip l ≠ "")
      let lines2 := filterByGlob lines prep.globPatterns prep.workspace
      let text := buildPayload lines2 prep.patternUsed prep.scopeLabel
                    prep.outputMode prep.workspace
      .ok ⟨2, some (hookJson text), some prep.command, some prep.patternUsed⟩

/-- The `tool_input` field lookup as seen through the whole request: the
payload must exist and `tool_input` must be a mapping. -/
def tiLookup (env : Env) (k : String) : Option PyValue :=
  match env.stdinPayload with
  | some payload =>
    (match pylookup "tool_input" payload with
     | some (.dict ti) => pylookup k ti
     | _ => Option.none)
  | Option.none => Option.none

/-- The request carries a usable pattern: a string whose stripped form is
non-empty. -/
def goodPatternB (env : Env) : Bool :=
  match tiLookup env "pattern" with
  | some (.str s) => pyStrip s ≠ ""
  | _ => false

/-! First-occurrence deduplication: lemmas about the `seen` loop of
`build_payload`'s `paths` mode. -/

/-- One step of the `seen` loop: append a value unless it was seen. -/
def addSeen {α : Type} [DecidableEq α] (seen : List α) (v : α) : List α :=
  if v ∈ seen then seen else seen ++ [v]

/-- Structural form of keep-first deduplication: keep the head, deduplicate
the tail, drop later copies of the head. -/
def dedupF {α : Type} [DecidableEq α] : List α → List α
  | [] => []
  | x :: xs => x :: (dedupF xs).filter (fun y => y ≠ x)

theorem mem_dedupF {α : Type} [DecidableEq α] (a : α) (l : List α) :
    a ∈ dedupF l ↔ a ∈ l := by
  induction l with
  | nil => simp [dedupF]
  | cons x xs ih =>
    by_cases hax : a = x
    · subst hax; simp [dedupF]
    · simp [dedupF, List.mem_filter, hax, ih]

theorem nodup_dedupF {α : Type} [DecidableEq α] (l : List α) :
    (dedupF l).Nodup := by
  induction l with
  | nil => simp [dedupF]
  | cons x xs ih =>
    refine List.Nodup.cons ?_ (ih.filter _)
    simp [List.mem_filter]

theorem dedupF_cons {α : Type} [DecidableEq α] (x : α) (xs : List α) :
    dedupF (x :: xs) = x :: (dedupF xs).filter (fun y => y ≠ x) := by
  simp [dedupF]

theorem sublist_dedupF {α : Type} [DecidableEq α] (l : List α) :
    List.Sublist (dedupF l) l := by
  induction l with
  | nil => simp [dedupF]
  | cons x xs ih =>
    exact ((List.filter_sublist _).trans ih).cons₂ x

theorem pairwise_dedupF {α : Type} [DecidableEq α] (l : List α) :
    (dedupF l).Pairwise (fun a b => l.indexOf a < l.indexOf b) := by
  induction l with
  | nil => simp [dedupF]
  | cons x xs ih =>
    refine List.pairwise_cons.2 ⟨?_, ?_⟩
    · intro b hb
      rw [List.mem_filter] at hb
      have hbne : b ≠ x := by simpa using hb.2
      rw [List.indexOf_cons_self, List.indexOf_cons_ne _ hbne.symm]
      exact Nat.succ_pos _
    · refine (ih.filter _).imp_of_mem ?_
      intro a b ha hb hab
      rw [List.mem_filter] at ha hb
      have hane : a ≠ x := by simpa using ha.2
      have hbne : b ≠ x := by simpa using hb.2
      rw [List.indexOf_cons_ne _ hane.symm, List.indexOf_cons_ne _ hbne.symm]
      exact Nat.succ_lt_succ hab

theorem dedupF_filter {α : Type} [DecidableEq α] (p : α → Bool) (l : List α) :
    dedupF (l.filter p) = (dedupF l).filter p := by
  induction l with
  | nil => simp [dedupF]
  | cons x xs ih =>
    by_cases hp : p x
    · rw [List.filter_cons_of_pos hp]
      show x :: (dedupF (xs.filter p)).filter (fun y => y ≠ x)
          = (x :: (dedupF xs).filter (fun y => y ≠ x)).filter p
      rw [List.filter_cons_of_pos hp, ih, List.filter_filter, List.filter_filter]
      exact congrArg (x :: ·) (List.filter_congr (fun a _ => by rw [Bool.and_comm]))
    · rw [List.filter_cons_of_neg hp]
      show dedupF (xs.filter p) = (x :: (dedupF xs).filter (fun y => y ≠ x)).filter p
      rw [List.filter_cons_of_neg hp, ih, List.filter_filter]
      refine (List.filter_congr (fun a _ => ?_)).symm
      by_cases hav : a = x
      · subst hav
        simp [hp]
      · simp [hav]

theorem foldl_addSeen_eq {α : Type} [DecidableEq α] (l : List α) :
    ∀ seen : List α, l.foldl addSeen seen
      = seen ++ dedupF (l.filter (fun v => decide (v ∉ seen))) := by
  induction l with
  | nil => intro seen; simp [dedupF]
  | cons v rest ih =>
    intro seen
    by_cases hv : v ∈ seen
    · rw [List.foldl_cons, show addSeen seen v = seen from if_pos hv, ih seen,
        List.filter_cons_of_neg (by simpa using hv)]
    · rw [List.foldl_cons, show addSeen seen v = seen ++ [v] from if_neg hv, ih,
        List.filter_cons_of_pos (by simpa using hv)]
      have hsplit : rest.filter (fun u => decide (u ∉ seen ++ [v]))
          = (rest.filter (fun u => decide (u ∉ seen))).filter (fun u => u ≠ v) := by
        rw [List.filter_filter]
        refine List.filter_congr (fun a _ => ?_)
        by_cases hav : a = v
        · subst hav; simp
        · by_cases has : a ∈ seen <;> simp [has, hav]
      rw [hsplit, dedupF_filter, List.append_assoc, List.singleton_append,
        dedupF_cons]

theorem pathsSeen_eq_dedupF (ws : PPath) (lines : List String) :
    pathsSeen ws lines = dedupF (lines.map (bestValue ws)) := by
  show lines.foldl (fun seen line => addSeen seen (bestValue ws line)) []
      = dedupF (lines.map (bestValue ws))
  rw [← List.foldl_map (bestValue ws) addSeen, foldl_addSeen_eq]
  simp

/-! Path component cleanliness and rendering lemmas. -/

/-- A clean path component: non-empty, not `.`, free of separators. -/
def GoodComp (c : String) : Prop :=
  c ≠ "" ∧ c ≠ "." ∧ '/' ∉ c.data

theorem append_ne_empty_of_left (s t : String) (h : s ≠ "") : s ++ t ≠ "" := by
  intro hc
  apply h
  apply String.ext
  have hd := congrArg String.data hc
  rw [String.data_append] at hd
  exact (List.append_eq_nil.mp hd).1

theorem joinSep_ne_empty (sep : String) :
    ∀ l : List String, l ≠ [] → (∀ c ∈ l, c ≠ "") → joinSep sep l ≠ ""
  | [], hne, _ => absurd rfl hne
  | [x], _, h => by simpa [joinSep] using h x (by simp)
  | x :: y :: ys, _, h => by
    show x ++ sep ++ joinSep sep (y :: ys) ≠ ""
    exact append_ne_empty_of_left _ _
      (append_ne_empty_of_left _ _ (h x (by simp)))

theorem toPosix_ne_empty (p : PPath) (h : ∀ c ∈ p.parts, c ≠ "") :
    toPosix p ≠ "" := by
  unfold toPosix
  split
  · exact append_ne_empty_of_left "/" _ (by decide)
  · split
    · decide
    · refine joinSep_ne_empty _ _ ?_ h
      rename_i hne
      simpa [List.isEmpty_iff] using hne

theorem fromString_parts_ne (s : String) :
    ∀ c ∈ (fromString s).parts, c ≠ "" ∧ c ≠ "." := by
  intro c hc
  unfold fromString at hc
  simp only [List.mem_filter] at hc
  simpa using hc.2

theorem mem_foldl_resolveStep :
    ∀ (l acc : List String), ∀ c ∈ l.foldl resolveStep acc,
      c ∈ acc ∨ (c ∈ l ∧ c ≠ ".." ∧ c ≠ "." ∧ c ≠ "") := by
  intro l
  induction l with
  | nil => exact fun acc c hc => Or.inl hc
  | cons x xs ih =>
    intro acc c hc
    rw [List.foldl_cons] at hc
    rcases ih (resolveStep acc x) c hc with h | h
    · unfold resolveStep at h
      split at h
      · exact Or.inl (List.dropLast_subset _ h)
      · split at h
        · exact Or.inl h
        · rcases List.mem_append.mp h with h2 | h2
          · exact Or.inl h2
          · have hcx : c = x := by simpa using h2
            subst hcx
            rename_i hdd hde
            right
            refine ⟨by simp, hdd, ?_, ?_⟩
            · intro hcdot
              exact hde (by simp [hcdot])
            · intro hcemp
              exact hde (by simp [hcemp])
    · exact Or.inr ⟨List.mem_cons_of_mem _ h.1, h.2⟩

theorem mem_normParts (l : List String) (c : String) (hc : c ∈ normParts l) :
    c ∈ l ∧ c ≠ ".." ∧ c ≠ "." ∧ c ≠ "" := by
  rcases mem_foldl_resolveStep l [] c hc with h | h
  · simp at h
  · exact h

theorem foldl_resolveStep_of_clean :
    ∀ (l acc : List String), (∀ c ∈ l, c ≠ ".." ∧ c ≠ "." ∧ c ≠ "") →
      l.foldl resolveStep acc = acc ++ l := by
  intro l
  induction l with
  | nil => intro acc _; simp
  | cons x xs ih =>
    intro acc h
    rw [List.foldl_cons]
    have hx := h x (by simp)
    have hstep : resolveStep acc x = acc ++ [x] := by
      unfold resolveStep
      rw [if_neg hx.1, if_neg (by simp [hx.2.1, hx.2.2])]
    rw [hstep, ih (acc ++ [x]) (fun c hc => h c (List.mem_cons_of_mem _ hc)),
      List.append_assoc, List.singleton_append]

theorem normParts_of_clean (l : List String)
    (h : ∀ c ∈ l, c ≠ ".." ∧ c ≠ "." ∧ c ≠ "") : normParts l = l := by
  simpa using foldl_resolveStep_of_clean l [] h

/-! Splitting and joining on `/`: the `as_posix` / `PurePosixPath` round
trip. -/

theorem splitChar_cons_eq (sep c : Char) (rest : List Char) :
    splitChar sep (c :: rest) = match splitChar sep rest with
      | [] => [[]]
      | r :: rs => if c = sep then [] :: r :: rs else (c :: r) :: rs := rfl

theorem splitChar_ne_nil (sep : Char) : ∀ l, splitChar sep l ≠ []
  | [] => by simp [splitChar]
  | c :: rest => by
    rw [splitChar_cons_eq]
    cases h : splitChar sep rest with
    | nil => simp
    | cons r rs =>
      show (if c = sep then [] :: r :: rs else (c :: r) :: rs) ≠ []
      split <;> simp

theorem splitChar_sep_cons (sep : Char) (l : List Char) :
    splitChar sep (sep :: l) = [] :: splitChar sep l := by
  rw [splitChar_cons_eq]
  cases h : splitChar sep l with
  | nil => exact absurd h (splitChar_ne_nil sep l)
  | cons r rs => simp

theorem splitChar_no_sep (sep : Char) :
    ∀ l : List Char, (∀ c ∈ l, c ≠ sep) → splitChar sep l = [l]
  | [] => by simp [splitChar]
  | c :: rest => by
    intro h
    rw [splitChar_cons_eq,
      splitChar_no_sep sep rest (fun d hd => h d (List.mem_cons_of_mem _ hd))]
    simp [h c (by simp)]

theorem splitChar_append_sep (sep : Char) :
    ∀ a b : List Char, (∀ c ∈ a, c ≠ sep) →
      splitChar sep (a ++ sep :: b) = a :: splitChar sep b
  | [], b, _ => by simpa using splitChar_sep_cons sep b
  | c :: a', b, h => by
    rw [List.cons_append, splitChar_cons_eq,
      splitChar_append_sep sep a' b (fun d hd => h d (List.mem_cons_of_mem _ hd))]
    simp [h c (by simp)]

theorem mk_data (s : String) : String.mk s.data = s := rfl

theorem split_join :
    ∀ parts : List String, parts ≠ [] → (∀ c ∈ parts, '/' ∉ c.data) →
      splitChar '/' (joinSep "/" parts).data = parts.map String.data
  | [], hne, _ => absurd rfl hne
  | [x], _, h => by
    show splitChar '/' x.data = [x].map String.data
    rw [splitChar_no_sep '/' x.data (fun c hc hcs => h x (by simp) (hcs ▸ hc))]
    simp
  | x :: y :: ys, _, h => by
    show splitChar '/' (x ++ "/" ++ joinSep "/" (y :: ys)).data = _
    have hd : (x ++ "/" ++ joinSep "/" (y :: ys)).data
        = x.data ++ '/' :: (joinSep "/" (y :: ys)).data := by
      simp [String.data_append]
    rw [hd, splitChar_append_sep '/' x.data _
        (fun c hc hcs => h x (by simp) (hcs ▸ hc)),
      split_join (y :: ys) (by simp) (fun c hc => h c (List.mem_cons_of_mem _ hc))]
    simp

theorem joinSep_data_head :
    ∀ (x : String) (xs : List String), ∃ rest : List Char,
      (joinSep "/" (x :: xs)).data = x.data ++ rest
  | x, [] => ⟨[], by simp [joinSep]⟩
  | x, y :: ys => ⟨'/' :: (joinSep "/" (y :: ys)).data, by
      show (x ++ "/" ++ joinSep "/" (y :: ys)).data = _
      simp [String.data_append]⟩

theorem filter_good_parts (l : List String) (h : ∀ c ∈ l, c ≠ "" ∧ c ≠ ".") :
    l.filter (fun c => c != "" && c != ".") = l := by
  rw [List.filter_eq_self]
  intro a ha
  simpa using h a ha

theorem map_mk_map_data (l : List String) :
    (l.map String.data).map String.mk = l := by
  induction l with
  | nil => rfl
  | cons x xs ih => simp [ih, mk_data]

theorem fromString_toPosix (p : PPath) (h : ∀ c ∈ p.parts, GoodComp c) :
    fromString (toPosix p) = p := by
  obtain ⟨ab, parts⟩ := p
  cases ab with
  | true =>
    cases parts with
    | nil => decide
    | cons x xs =>
      have hx : ∀ c ∈ x :: xs, GoodComp c := h
      have hrepr : toPosix ⟨true, x :: xs⟩ = "/" ++ joinSep "/" (x :: xs) := rfl
      have hdata : (toPosix ⟨true, x :: xs⟩).data
          = '/' :: (joinSep "/" (x :: xs)).data := by
        rw [hrepr, String.data_append]
        rfl
      have habs : strStartsWith (toPosix ⟨true, x :: xs⟩) "/" = true := by
        unfold strStartsWith
        rw [hdata, List.isPrefixOf_iff_prefix]
        exact ⟨(joinSep "/" (x :: xs)).data, rfl⟩
      have hsplit : splitChar '/' (toPosix ⟨true, x :: xs⟩).data
          = [] :: (x :: xs).map String.data := by
        rw [hdata, splitChar_sep_cons,
          split_join (x :: xs) (by simp) (fun c hc => (hx c hc).2.2)]
      unfold fromString
      rw [habs, hsplit]
      have hparts : ((([] :: (x :: xs).map String.data).map String.mk).filter
          (fun c => c != "" && c != ".")) = x :: xs := by
        rw [List.map_cons, map_mk_map_data,
          List.filter_cons_of_neg (by decide), filter_good_parts _
            (fun c hc => ⟨(hx c hc).1, (hx c hc).2.1⟩)]
      rw [hparts]
  | false =>
    cases parts with
    | nil => decide
    | cons x xs =>
      have hx : ∀ c ∈ x :: xs, GoodComp c := h
      have hrepr : toPosix ⟨false, x :: xs⟩ = joinSep "/" (x :: xs) := rfl
      have habs : strStartsWith (toPosix ⟨false, x :: xs⟩) "/" = false := by
        unfold strStartsWith
        rw [hrepr]
        obtain ⟨rest, hrest⟩ := joinSep_data_head x xs
        rw [hrest]
        have hxne : x.data ≠ [] := by
          intro hc
          exact (hx x (by simp)).1 (String.ext hc)
        cases hxd : x.data with
        | nil => exact absurd hxd hxne
        | cons c cs =>
          have hcne : c ≠ '/' := by
            intro hc
            exact (hx x (by simp)).2.2 (by rw [hxd, hc]; simp)
          simp [List.isPrefixOf, Ne.symm hcne]
      have hsplit : splitChar '/' (toPosix ⟨false, x :: xs⟩).data
          = (x :: xs).map String.data := by
        rw [hrepr, split_join (x :: xs) (by simp) (fun c hc => (hx c hc).2.2)]
      unfold fromString
      rw [habs, hsplit, map_mk_map_data, filter_good_parts _
        (fun c hc => ⟨(hx c hc).1, (hx c hc).2.1⟩)]

/-! Shape facts about `extract_paths`: when a token exists, the relative and
absolute strings are both present and non-empty. -/

theorem relativeTo_eq_some (p base rr : PPath) :
    relativeTo p base = some rr ↔
      p.abs = base.abs ∧ base.parts <+: p.parts
        ∧ rr = ⟨false, p.parts.drop base.parts.length⟩ := by
  unfold relativeTo
  split
  · rename_i hcond
    simp only [Bool.and_eq_true, decide_eq_true_eq,
      List.isPrefixOf_iff_prefix] at hcond
    simp [hcond.1, hcond.2, eq_comm]
  · rename_i hcond
    simp only [Bool.and_eq_true, decide_eq_true_eq,
      List.isPrefixOf_iff_prefix] at hcond
    constructor
    · intro hc
      exact absurd hc (by simp)
    · rintro ⟨h1, h2, _⟩
      exact absurd ⟨h1, h2⟩ hcond

theorem extractAbsP_parts_ne (cleaned : String) (ws : PPath) :
    ∀ c ∈ (extractAbsP cleaned ws).parts, c ≠ "" := by
  intro c hc
  unfold extractAbsP at hc
  split at hc
  · exact (fromString_parts_ne _ c hc).1
  · exact (mem_normParts _ c hc).2.2.2

theorem extractRelStr_ne (cleaned : String) (ws : PPath) :
    extractRelStr cleaned ws ≠ "" := by
  unfold extractRelStr
  cases hrel : relativeTo (extractAbsP cleaned ws) ws with
  | none => exact toPosix_ne_empty _ (extractAbsP_parts_ne cleaned ws)
  | some rr =>
    obtain ⟨-, -, hrr⟩ := (relativeTo_eq_some _ _ _).mp hrel
    refine toPosix_ne_empty _ ?_
    intro c hcm
    rw [hrr] at hcm
    exact extractAbsP_parts_ne cleaned ws c (List.drop_subset _ _ hcm)

theorem extractAbsStr_ne (cleaned : String) (ws : PPath) :
    toPosix (extractAbsP cleaned ws) ≠ "" :=
  toPosix_ne_empty _ (extractAbsP_parts_ne cleaned ws)

/-- Shape of `extract_paths`: all three results are absent together, or all
present with non-empty relative and absolute strings. -/
theorem extractPaths_shape (line : String) (ws : PPath) :
    extractPaths line ws = (Option.none, Option.none, Option.none)
    ∨ ∃ d r a, extractPaths line ws = (some d, some r, some a)
        ∧ r ≠ "" ∧ a ≠ "" := by
  unfold extractPaths
  cases cleanedToken line with
  | none => exact Or.inl rfl
  | some cleaned =>
    refine Or.inr ⟨_, _, _, rfl, ?_, ?_⟩
    · exact extractRelStr_ne cleaned ws
    · exact extractAbsStr_ne cleaned ws

/-- Characterization of glob survival for a single line, in the terms the
spec uses: no extractable path, or some pattern matches the relative or the
absolute path. -/
theorem keepLine_iff (pats : List String) (ws : PPath) (line : String) :
    keepLine pats ws line = true ↔
      ((extractPaths line ws).2.1 = Option.none
        ∧ (extractPaths line ws).2.2 = Option.none)
      ∨ ∃ pat ∈ pats,
          (∃ r, (extractPaths line ws).2.1 = some r ∧ fnmatchB r pat = true)
        ∨ (∃ a, (extractPaths line ws).2.2 = some a ∧ fnmatchB a pat = true) := by
  rcases extractPaths_shape line ws with hsh | ⟨d, r, a, hsh, hr, ha⟩
  · unfold keepLine
    rw [hsh]
    simp [optFalsy]
  · unfold keepLine
    rw [hsh]
    simp [optFalsy, hr, ha, List.any_eq_true]

/-- C2: glob filtering passes every line through unchanged when no patterns
are configured; otherwise it keeps exactly the lines with no extractable
path, or whose relative or absolute path matches some configured pattern
(shell-style wildcards); the result is a subsequence of the input, so its
size is at most the input size, with equality for an empty pattern list. -/
theorem claim_C2 (lines pats : List String) (ws : PPath) :
    filterByGlob lines [] ws = lines
  ∧ List.Sublist (filterByGlob lines pats ws) lines
  ∧ (filterByGlob lines pats ws).length ≤ lines.length
  ∧ (pats ≠ [] → filterByGlob lines pats ws = lines.filter (keepLine pats ws))
  ∧ (∀ line, keepLine pats ws line = true ↔
      ((extractPaths line ws).2.1 = Option.none
        ∧ (extractPaths line ws).2.2 = Option.none)
      ∨ ∃ pat ∈ pats,
          (∃ r, (extractPaths line ws).2.1 = some r ∧ fnmatchB r pat = true)
        ∨ (∃ a, (extractPaths line ws).2.2 = some a ∧ fnmatchB a pat = true)) := by
  have hsub : List.Sublist (filterByGlob lines pats ws) lines := by
    unfold filterByGlob
    split
    · exact List.Sublist.refl lines
    · exact List.filter_sublist lines
  refine ⟨by simp [filterByGlob], hsub, hsub.length_le, ?_, keepLine_iff pats ws⟩
  intro hne
  unfold filterByGlob
  rw [if_neg (by simpa [List.isEmpty_iff] using hne)]

/-- Witness for C2 at concrete inputs: scenario 6 of the spec (`*.go`
against `a.go` and `b.ts` lines, plus a line without a path token). -/
theorem claim_C2_witness :
    filterByGlob ["a.go:1:x", "b.ts:2:y", "noext"] [] ⟨true, ["ws"]⟩
        = ["a.go:1:x", "b.ts:2:y", "noext"]
  ∧ filterByGlob ["a.go:1:x", "b.ts:2:y", "noext"] ["*.go"] ⟨true, ["ws"]⟩
      = List.filter (keepLine ["*.go"] ⟨true, ["ws"]⟩)
          ["a.go:1:x", "b.ts:2:y", "noext"]
  ∧ (filterByGlob ["a.go:1:x", "b.ts:2:y", "noext"] ["*.go"]
      ⟨true, ["ws"]⟩).length ≤ 3 :=
  ⟨(claim_C2 ["a.go:1:x", "b.ts:2:y", "noext"] [] ⟨true, ["ws"]⟩).1,
   (claim_C2 ["a.go:1:x", "b.ts:2:y", "noext"] ["*.go"] ⟨true, ["ws"]⟩).2.2.2.1
     (by decide),
   (claim_C2 ["a.go:1:x", "b.ts:2:y", "noext"] ["*.go"] ⟨true, ["ws"]⟩).2.2.1⟩

/-- C3: on a non-empty line list in `paths` mode, the payload body is the
per-line best display values deduplicated: no duplicates, a subsequence of
the value list (so input order is preserved), containing exactly the values
that occur, ordered by first occurrence (strictly increasing `indexOf`). -/
theorem claim_C3 (lines : List String) (pat label : String) (ws : PPath)
    (h : lines ≠ []) :
    buildPayload lines pat label "paths" ws
      = "MGrep semantic search for " ++ pyRepr pat ++ " in " ++ label
        ++ "\n" ++ joinSep "\n" (pathsSeen ws lines)
  ∧ (pathsSeen ws lines).Nodup
  ∧ List.Sublist (pathsSeen ws lines) (lines.map (bestValue ws))
  ∧ (∀ v, v ∈ pathsSeen ws lines ↔ v ∈ lines.map (bestValue ws))
  ∧ (pathsSeen ws lines).Pairwise
      (fun a b => (lines.map (bestValue ws)).indexOf a
        < (lines.map (bestValue ws)).indexOf b) := by
  have hd := pathsSeen_eq_dedupF ws lines
  refine ⟨?_, ?_, ?_, ?_, ?_⟩
  · simp only [buildPayload]
    rw [if_neg (by simpa [List.isEmpty_iff] using h), if_pos trivial]
  · rw [hd]; exact nodup_dedupF _
  · rw [hd]; exact sublist_dedupF _
  · intro v; rw [hd]; exact mem_dedupF v _
  · rw [hd]; exact pairwise_dedupF _

/-- Witness for C3: scenario 2 of the spec, two result lines sharing one
file path, in `paths` mode. -/
theorem claim_C3_witness :
    buildPayload ["a.go:1:x", "a.go:2:y"] "foo" "." "paths" ⟨true, ["ws"]⟩
      = "MGrep semantic search for " ++ pyRepr "foo" ++ " in " ++ "."
        ++ "\n" ++ joinSep "\n"
            (pathsSeen ⟨true, ["ws"]⟩ ["a.go:1:x", "a.go:2:y"])
  ∧ (pathsSeen ⟨true, ["ws"]⟩ ["a.go:1:x", "a.go:2:y"]).Nodup :=
  ⟨(claim_C3 ["a.go:1:x", "a.go:2:y"] "foo" "." ⟨true, ["ws"]⟩ (by decide)).1,
   (claim_C3 ["a.go:1:x", "a.go:2:y"] "foo" "." ⟨true, ["ws"]⟩ (by decide)).2.1⟩

/-! C4: max-results resolution. -/

theorem parseMaxResults_eq (ti : List (String × PyValue)) (d : Int) :
    parseMaxResults ti d = match firstUsable ti with
      | some v => pyClamp v
      | Option.none => d := by
  unfold parseMaxResults firstUsable
  cases (pylookup "--max-count" ti).bind usableValue with
  | some v => rfl
  | none =>
    cases (pylookup "-m" ti).bind usableValue with
    | some v => rfl
    | none => cases (pylookup "max_count" ti).bind usableValue <;> rfl

theorem pyClamp_bounds (v : Int) : 1 ≤ pyClamp v ∧ pyClamp v ≤ 100 :=
  ⟨le_max_left 1 _, max_le (by norm_num) (min_le_left 100 v)⟩

theorem pyClamp_id (v : Int) (h1 : 1 ≤ v) (h2 : v ≤ 100) : pyClamp v = v := by
  unfold pyClamp
  rw [min_eq_right h2, max_eq_right h1]

/-- C4 counterexample: with the configured default overridden to 500 (the
max-results default is an environment override the code does not clamp) and
no alias present, the resolved value is 500, outside `[1,100]`. -/
theorem claim_C4_counterexample :
    parseMaxResults [] 500 = 500 ∧ ¬(parseMaxResults [] 500 ≤ 100) := by
  decide

/-- C4 (amended): the three alias keys are checked in a fixed priority order;
the first usable value (integer or digit-only string) is clamped into
`[1,100]`, with in-range values passing through unchanged; if no alias is
usable the configured default is used verbatim, so the result is guaranteed
in `[1,100]` only when the default itself is. -/
theorem claim_C4 (ti : List (String × PyValue)) (defaultMax : Int) :
    (∀ v, firstUsable ti = some v →
        parseMaxResults ti defaultMax = pyClamp v
      ∧ 1 ≤ parseMaxResults ti defaultMax
      ∧ parseMaxResults ti defaultMax ≤ 100
      ∧ (1 ≤ v → v ≤ 100 → parseMaxResults ti defaultMax = v))
  ∧ (firstUsable ti = Option.none → parseMaxResults ti defaultMax = defaultMax)
  ∧ (1 ≤ defaultMax → defaultMax ≤ 100 →
      1 ≤ parseMaxResults ti defaultMax ∧ parseMaxResults ti defaultMax ≤ 100) := by
  rw [parseMaxResults_eq]
  cases hf : firstUsable ti with
  | some v =>
    refine ⟨?_, by simp, ?_⟩
    · intro v' hv'
      injection hv' with hvv
      subst hvv
      exact ⟨rfl, (pyClamp_bounds v).1, (pyClamp_bounds v).2,
        fun h1 h2 => pyClamp_id v h1 h2⟩
    · intro _ _
      exact pyClamp_bounds v
  | none =>
    refine ⟨?_, fun _ => rfl, fun h1 h2 => ⟨h1, h2⟩⟩
    intro v' hv'
    exact Option.noConfusion hv'

/-- Witness for C4: the digit string `"7"` under the `-m` alias resolves to
7, inside `[1,100]`. -/
theorem claim_C4_witness :
    parseMaxResults [("-m", PyValue.str "7")] 20 = 7
  ∧ 1 ≤ parseMaxResults [("-m", PyValue.str "7")] 20
  ∧ parseMaxResults [("-m", PyValue.str "7")] 20 ≤ 100 := by
  have h := (claim_C4 [("-m", PyValue.str "7")] 20).1 7 (by decide)
  exact ⟨h.2.2.2 (by decide) (by decide), h.2.1, h.2.2.1⟩

/-! C6: the argument vector. -/

/-- C6: for a request whose `max_results` is in `[1,100]` (the SearchRequest
invariant) and a store override that is not the empty string, the command is
exactly prefix, `search`, `-i` iff case-insensitive, `-m <n>`, the
`--store` pair iff the override is present, the pattern, and the non-empty
scope argument — in that order, with nothing else. -/
theorem claim_C6 (binCmd : List String) (ci : Bool) (maxResults : Int)
    (store : Option String) (pat : String) (pathArg : Option String)
    (hmr1 : 1 ≤ maxResults) (hstore : store ≠ some "") :
    buildCommand binCmd ci maxResults store pat pathArg
      = binCmd ++ ["search"]
        ++ (if ci then ["-i"] else [])
        ++ ["-m", toString maxResults]
        ++ (match store with
            | some s => ["--store", s]
            | Option.none => [])
        ++ [pat]
        ++ (match pathArg with
            | some p => if p ≠ "" then [p] else []
            | Option.none => []) := by
  have hz : maxResults ≠ 0 := by omega
  unfold buildCommand
  rw [if_pos hz]
  cases store with
  | none => rfl
  | some s =>
    have hs : s ≠ "" := fun hc => hstore (by rw [hc])
    simp [hs]

/-- Witness for C6 at concrete arguments (all optional parts present). -/
theorem claim_C6_witness :
    buildCommand ["mgrep"] true 20 (some "st") "foo" (some "src")
      = ["mgrep", "search", "-i", "-m", "20", "--store", "st", "foo", "src"] := by
  rw [claim_C6 ["mgrep"] true 20 (some "st") "foo" (some "src")
    (by decide) (by decide)]
  rfl

/-! C8: the external-command runner. -/

/-- C8 counterexample: `run_mgrep` catches only `FileNotFoundError` and
`TimeoutExpired` (source line 211), so any other exception raised by
`subprocess.run` — here a `PermissionError`, e.g. for a resolved but
non-executable `MGREP_BIN` — propagates to the caller instead of becoming the
unavailable signal, refuting "never raises to its caller". -/
theorem claim_C8_counterexample :
    runMgrep (SubprocOutcome.raised "PermissionError")
      = Except.error "PermissionError"
  ∧ runMgrep (SubprocOutcome.raised "PermissionError")
      ≠ Except.ok Option.none :=
  ⟨rfl, fun h => Except.noConfusion h⟩

/-- C8 (amended): on binary-not-found and timeout, and on any non-zero exit
code, `run_mgrep` returns the unavailable signal `none` instead of an
exception, and on exit code 0 it returns the captured stdout verbatim; but it
catches only those two exception types, so any other exception from
`subprocess.run` propagates to the caller uncaught — it raises exactly on the
uncaught-exception outcomes. -/
theorem claim_C8 (o : SubprocOutcome) :
    (runMgrep o = Except.ok Option.none ↔
      o = SubprocOutcome.notFound ∨ o = SubprocOutcome.timedOut
      ∨ ∃ rc out err, o = SubprocOutcome.completed rc out err ∧ rc ≠ 0)
  ∧ (∀ rc out err, o = SubprocOutcome.completed rc out err → rc = 0 →
      runMgrep o = Except.ok (some out))
  ∧ (∀ e, runMgrep o = Except.error e ↔ o = SubprocOutcome.raised e) := by
  cases o with
  | notFound =>
    refine ⟨by simp [runMgrep], ?_, ?_⟩
    · intro rc out err h _
      cases h
    · intro e
      simp [runMgrep]
  | timedOut =>
    refine ⟨by simp [runMgrep], ?_, ?_⟩
    · intro rc out err h _
      cases h
    · intro e
      simp [runMgrep]
  | raised e0 =>
    refine ⟨by simp [runMgrep], ?_, ?_⟩
    · intro rc out err h _
      cases h
    · intro e
      simp [runMgrep]
  | completed rc out err =>
    refine ⟨?_, ?_, ?_⟩
    · by_cases hrc : rc = 0 <;> simp [runMgrep, hrc]
    · intro rc' out' err' h h0
      cases h
      simp [runMgrep, h0]
    · intro e
      by_cases hrc : rc = 0 <;> simp [runMgrep, hrc]

/-- Witness for C8: a successful run returns its stdout. -/
theorem claim_C8_witness :
    runMgrep (SubprocOutcome.completed 0 "hit.go:1:x" "")
      = Except.ok (some "hit.go:1:x") :=
  (claim_C8 (SubprocOutcome.completed 0 "hit.go:1:x" "")).2.1 0 "hit.go:1:x" ""
    rfl rfl

/-! C7: the relativization round trip. -/

theorem splitChar_chunk_no_sep (sep : Char) :
    ∀ l ch, ch ∈ splitChar sep l → sep ∉ ch
  | [], ch, h => by
    simp [splitChar] at h
    subst h
    simp
  | c :: rest, ch, h => by
    rw [splitChar_cons_eq] at h
    cases hs : splitChar sep rest with
    | nil => exact absurd hs (splitChar_ne_nil sep rest)
    | cons r rs =>
      rw [hs] at h
      replace h : ch ∈ (if c = sep then [] :: r :: rs else (c :: r) :: rs) := h
      by_cases hcs : c = sep
      · rw [if_pos hcs] at h
        rcases List.mem_cons.mp h with h1 | h1
        · subst h1; simp
        · exact splitChar_chunk_no_sep sep rest ch (by rw [hs]; exact h1)
      · rw [if_neg hcs] at h
        rcases List.mem_cons.mp h with h1 | h1
        · subst h1
          intro hmem
          rcases List.mem_cons.mp hmem with h2 | h2
          · exact hcs h2.symm
          · exact splitChar_chunk_no_sep sep rest r
              (by rw [hs]; exact List.mem_cons_self r rs) h2
        · exact splitChar_chunk_no_sep sep rest ch
            (by rw [hs]; exact List.mem_cons_of_mem r h1)

theorem fromString_no_slash (s : String) :
    ∀ c ∈ (fromString s).parts, '/' ∉ c.data := by
  intro c hc
  unfold fromString at hc
  rcases List.mem_filter.mp hc with ⟨hmem, -⟩
  rcases List.mem_map.mp hmem with ⟨chunk, hchunk, hmk⟩
  subst hmk
  exact fun hsl => splitChar_chunk_no_sep '/' s.data chunk hchunk hsl

theorem fromString_good (s : String) :
    ∀ c ∈ (fromString s).parts, GoodComp c :=
  fun c hc => ⟨(fromString_parts_ne s c hc).1, (fromString_parts_ne s c hc).2,
    fromString_no_slash s c hc⟩

theorem extractAbsP_good (cleaned : String) (ws : PPath)
    (hclean : ∀ c ∈ ws.parts, '/' ∉ c.data) :
    ∀ c ∈ (extractAbsP cleaned ws).parts, GoodComp c := by
  intro c hc
  unfold extractAbsP at hc
  split at hc
  · exact fromString_good _ c hc
  · have h2 := mem_normParts _ c hc
    refine ⟨h2.2.2.2, h2.2.2.1, ?_⟩
    rcases List.mem_append.mp h2.1 with hb | hm2
    · split at hb
      · exact absurd hb (List.not_mem_nil c)
      · exact absurd hb (by simp [rootPath])
    · unfold joinP at hm2
      split at hm2
      · exact fromString_no_slash _ c hm2
      · rcases List.mem_append.mp hm2 with hm | hm
        · exact hclean c hm
        · exact fromString_no_slash _ c hm

instance (c : String) : Decidable (GoodComp c) := by
  unfold GoodComp
  infer_instance

/-- C7 counterexample: for the line `/ws/x/../a.go:1:m` under workspace
`/ws` — an absolute token under the workspace — joining `relative_path` onto
the workspace and resolving yields `/ws/a.go`, while `absolute_path` is the
unnormalized `/ws/x/../a.go`; the two differ. -/
theorem claim_C7_counterexample :
    extractPaths "/ws/x/../a.go:1:m" ⟨true, ["ws"]⟩
      = (some "x/../a.go", some "x/../a.go", some "/ws/x/../a.go")
  ∧ (fromString "/ws/x/../a.go").abs = true
  ∧ ["ws"].isPrefixOf (fromString "/ws/x/../a.go").parts = true
  ∧ toPosix (presolve rootPath
      (joinP ⟨true, ["ws"]⟩ (fromString "x/../a.go"))) = "/ws/a.go"
  ∧ "/ws/a.go" ≠ "/ws/x/../a.go" := by
  decide

/-- C7 (amended): for a line whose extracted token lies (lexically) under the
workspace, joining `relative_path` onto the workspace yields exactly the path
whose POSIX form is `absolute_path`, so the two sides agree after resolving
both; the original claim — resolving the join returns `absolute_path`
verbatim — holds additionally whenever `absolute_path` is already
normalized, e.g. for every workspace-relative token. -/
theorem claim_C7 (line : String) (ws : PPath) (d : Option String)
    (r a : String)
    (hws : ws.abs = true) (hclean : ∀ c ∈ ws.parts, GoodComp c)
    (hex : extractPaths line ws = (d, some r, some a))
    (habs : (fromString a).abs = true)
    (hpre : ws.parts <+: (fromString a).parts) :
    joinP ws (fromString r) = fromString a
  ∧ presolve rootPath (joinP ws (fromString r))
      = presolve rootPath (fromString a) := by
  unfold extractPaths at hex
  cases htok : cleanedToken line with
  | none =>
    rw [htok] at hex
    exact absurd (congrArg (fun t => t.2.1) hex) (by simp)
  | some cleaned =>
    rw [htok] at hex
    unfold extractFromCleaned at hex
    have hr : r = extractRelStr cleaned ws := by
      have := congrArg (fun t => t.2.1) hex
      simpa using this.symm
    have ha : a = toPosix (extractAbsP cleaned ws) := by
      have := congrArg (fun t => t.2.2) hex
      simpa using this.symm
    have hgood : ∀ c ∈ (extractAbsP cleaned ws).parts, GoodComp c :=
      extractAbsP_good cleaned ws (fun c hc => (hclean c hc).2.2)
    have hback : fromString a = extractAbsP cleaned ws := by
      rw [ha]
      exact fromString_toPosix _ hgood
    rw [hback] at habs hpre
    obtain ⟨t, ht⟩ := hpre
    have hrel : relativeTo (extractAbsP cleaned ws) ws
        = some ⟨false, (extractAbsP cleaned ws).parts.drop ws.parts.length⟩ := by
      rw [relativeTo_eq_some]
      exact ⟨by rw [habs, hws], ⟨t, ht⟩, rfl⟩
    have hdropt : (extractAbsP cleaned ws).parts.drop ws.parts.length = t := by
      rw [← ht, List.drop_left]
    have hrstr : r = toPosix ⟨false, t⟩ := by
      rw [hr]
      unfold extractRelStr
      rw [hrel, hdropt]
    have hrgood : ∀ c ∈ (PPath.mk false t).parts, GoodComp c := by
      intro c hc
      refine hgood c ?_
      rw [← ht]
      exact List.mem_append_right _ hc
    have hfr : fromString r = ⟨false, t⟩ := by
      rw [hrstr]
      exact fromString_toPosix _ hrgood
    have hjoin : joinP ws (fromString r) = extractAbsP cleaned ws := by
      rw [hfr]
      unfold joinP
      rw [if_neg (by simp)]
      have : (⟨ws.abs, ws.parts ++ t⟩ : PPath)
          = ⟨(extractAbsP cleaned ws).abs, (extractAbsP cleaned ws).parts⟩ := by
        rw [hws, habs, ht]
      exact this
    rw [← hback] at hjoin
    exact ⟨hjoin, by rw [hjoin]⟩

/-- Witness for C7: the workspace-relative token `lib/util.py` under `/ws`
round-trips exactly. -/
theorem claim_C7_witness :
    joinP ⟨true, ["ws"]⟩ (fromString "lib/util.py")
      = fromString "/ws/lib/util.py"
  ∧ presolve rootPath (joinP ⟨true, ["ws"]⟩ (fromString "lib/util.py"))
      = presolve rootPath (fromString "/ws/lib/util.py") :=
  claim_C7 "lib/util.py:5:d" ⟨true, ["ws"]⟩
    (some "lib/util.py") "lib/util.py" "/ws/lib/util.py"
    rfl (by decide) (by decide) (by decide) (by decide)

/-! C10: dotted tokens that are not `./`-prefixed. -/

/-- C10: for a line whose stripped token begins with `.` but not `./` (and
whose dot-stripped remainder is an ordinary relative name), `extract_paths`
strips the single leading dot before resolution: `relative_path` and
`absolute_path` name the dot-stripped file under the workspace while
`display_path` keeps the dotted token, and glob filtering tests exactly the
two dot-stripped forms. -/
theorem claim_C10 (line : String) (ws : PPath) (cleaned : String)
    (hws : ws.abs = true)
    (hwclean : ∀ c ∈ ws.parts, c ≠ ".." ∧ c ≠ "." ∧ c ≠ "")
    (htok : cleanedToken line = some cleaned)
    (hdot : strStartsWith cleaned "." = true)
    (hnds : strStartsWith cleaned "./" = false)
    (hrest : strDrop cleaned 1 ≠ "")
    (habs : isAbsStr (strDrop cleaned 1) = false)
    (hdrive : driveStr (strDrop cleaned 1) = false)
    (hnodd : ∀ c ∈ (fromString (strDrop cleaned 1)).parts, c ≠ "..") :
    extractPaths line ws
      = (some cleaned,
         some (toPosix ⟨false, (fromString (strDrop cleaned 1)).parts⟩),
         some (toPosix
           ⟨true, ws.parts ++ (fromString (strDrop cleaned 1)).parts⟩))
  ∧ ∀ pats, keepLine pats ws line
      = pats.any (fun pat =>
          fnmatchB (toPosix ⟨false, (fromString (strDrop cleaned 1)).parts⟩) pat
          || fnmatchB (toPosix
              ⟨true, ws.parts ++ (fromString (strDrop cleaned 1)).parts⟩) pat) := by
  have hds : dotStrip cleaned = strDrop cleaned 1 := by
    unfold dotStrip
    rw [if_neg (by simp [hnds]), if_pos hdot, if_neg hrest]
  have hfabs : (fromString (strDrop cleaned 1)).abs = false := habs
  have hrparts : ∀ c ∈ (fromString (strDrop cleaned 1)).parts,
      c ≠ ".." ∧ c ≠ "." ∧ c ≠ "" :=
    fun c hc => ⟨hnodd c hc, (fromString_parts_ne _ c hc).2,
      (fromString_parts_ne _ c hc).1⟩
  have hA : extractAbsP cleaned ws
      = ⟨true, ws.parts ++ (fromString (strDrop cleaned 1)).parts⟩ := by
    unfold extractAbsP
    rw [hds, if_neg (by simp [habs, hdrive])]
    unfold joinP
    rw [if_neg (by simp [hfabs])]
    unfold presolve
    rw [if_pos hws]
    rw [List.nil_append]
    show (⟨true, normParts _⟩ : PPath) = _
    rw [normParts_of_clean _ ?_]
    intro c hc
    rcases List.mem_append.mp hc with hm | hm
    · exact hwclean c hm
    · exact hrparts c hm
  have hrel : relativeTo (extractAbsP cleaned ws) ws
      = some ⟨false, (fromString (strDrop cleaned 1)).parts⟩ := by
    rw [relativeTo_eq_some, hA]
    refine ⟨hws.symm ▸ rfl, ⟨_, rfl⟩, ?_⟩
    rw [List.drop_left]
  have hrstr : extractRelStr cleaned ws
      = toPosix ⟨false, (fromString (strDrop cleaned 1)).parts⟩ := by
    unfold extractRelStr
    rw [hrel]
  have hmain : extractPaths line ws
      = (some cleaned,
         some (toPosix ⟨false, (fromString (strDrop cleaned 1)).parts⟩),
         some (toPosix
           ⟨true, ws.parts ++ (fromString (strDrop cleaned 1)).parts⟩)) := by
    unfold extractPaths
    rw [htok]
    unfold extractFromCleaned
    dsimp only
    rw [hrstr, hA, if_pos hdot]
  refine ⟨hmain, ?_⟩
  intro pats
  have hrne : toPosix ⟨false, (fromString (strDrop cleaned 1)).parts⟩ ≠ "" :=
    toPosix_ne_empty _ (fun c hc => (hrparts c hc).2.2)
  have hane : toPosix
      ⟨true, ws.parts ++ (fromString (strDrop cleaned 1)).parts⟩ ≠ "" := by
    refine toPosix_ne_empty _ ?_
    intro c hc
    rcases List.mem_append.mp hc with hm | hm
    · exact (hwclean c hm).2.2
    · exact (hrparts c hm).2.2
  unfold keepLine
  rw [hmain]
  dsimp only
  rw [if_neg (by simp [optFalsy, hrne])]
  refine congrArg pats.any (funext fun pat => ?_)
  simp [hrne, hane]

/-- Witness for C10: the hidden-file line `.env:3:match` under `/ws` keeps
display `.env` but resolves `env` / `/ws/env`, and glob filtering tests the
dot-stripped forms. -/
theorem claim_C10_witness :
    extractPaths ".env:3:match" ⟨true, ["ws"]⟩
      = (some ".env", some "env", some "/ws/env")
  ∧ keepLine [".env"] ⟨true, ["ws"]⟩ ".env:3:match"
      = [".env"].any (fun pat => fnmatchB "env" pat || fnmatchB "/ws/env" pat)
  ∧ keepLine ["env"] ⟨true, ["ws"]⟩ ".env:3:match"
      = ["env"].any (fun pat => fnmatchB "env" pat || fnmatchB "/ws/env" pat) := by
  have h := claim_C10 ".env:3:match" ⟨true, ["ws"]⟩ ".env" rfl (by decide)
    (by decide) (by decide) (by decide) (by decide) (by decide) (by decide)
    (by decide)
  exact ⟨h.1, h.2 [".env"], h.2 ["env"]⟩

/-! The guard chain of `main`: facts about `stage1`. -/

theorem stage1_pattern (env : Env) (prep : Prepared)
    (h : stage1 env = some prep) :
    tiLookup env "pattern" = some (.str prep.patternUsed)
  ∧ pyStrip prep.patternUsed ≠ "" := by
  unfold stage1 at h
  cases hpay : env.stdinPayload with
  | none => rw [hpay] at h; exact Option.noConfusion h
  | some payload =>
    rw [hpay] at h
    unfold tiLookup
    rw [hpay]
    dsimp only
    dsimp only at h
    split at h
    · exact Option.noConfusion h
    · split at h
      · exact Option.noConfusion h
      · split at h
        · rename_i ti hti
          split at h
          · rename_i p hp
            split at h
            · exact Option.noConfusion h
            · rename_i hstr
              split at h
              · exact Option.noConfusion h
              · split at h
                · exact Option.noConfusion h
                · split at h
                  · exact Option.noConfusion h
                  · split at h
                    · exact Option.noConfusion h
                    · injection h with hprep
                      rw [← hprep]
                      exact ⟨hp, hstr⟩
          · exact Option.noConfusion h
        · exact Option.noConfusion h

theorem stage1_none_of_badPattern (env : Env) (h : goodPatternB env = false) :
    stage1 env = Option.none := by
  cases hs : stage1 env with
  | none => rfl
  | some prep =>
    obtain ⟨h1, h2⟩ := stage1_pattern env prep hs
    unfold goodPatternB at h
    rw [h1] at h
    simp [h2] at h

/-! Evaluation equations for `mgrepMain`. -/

theorem mgrepMain_none (env : Env) (h : stage1 env = Option.none) :
    mgrepMain env = .ok ⟨0, Option.none, Option.none, Option.none⟩ := by
  unfold mgrepMain
  rw [h]

theorem mgrepMain_runNone (env : Env) (prep : Prepared)
    (h1 : stage1 env = some prep)
    (h2 : runMgrep (env.subprocess prep.command) = .ok Option.none) :
    mgrepMain env
      = .ok ⟨0, Option.none, some prep.command, some prep.patternUsed⟩ := by
  unfold mgrepMain
  rw [h1]
  dsimp only
  rw [h2]

theorem mgrepMain_error (env : Env) (prep : Prepared) (e : String)
    (h1 : stage1 env = some prep)
    (h2 : runMgrep (env.subprocess prep.command) = Except.error e) :
    mgrepMain env = Except.error e := by
  unfold mgrepMain
  rw [h1]
  dsimp only
  rw [h2]

theorem mgrepMain_intercept (env : Env) (prep : Prepared) (out : String)
    (h1 : stage1 env = some prep)
    (h2 : runMgrep (env.subprocess prep.command) = .ok (some out)) :
    mgrepMain env
      = .ok ⟨2, some (hookJson (buildPayload
            (filterByGlob ((pySplitlines out).filter (fun l => pyStrip l ≠ ""))
              prep.globPatterns prep.workspace)
            prep.patternUsed prep.scopeLabel prep.outputMode prep.workspace)),
          some prep.command, some prep.patternUsed⟩ := by
  unfold mgrepMain
  rw [h1]
  dsimp only
  rw [h2]

/-! Concrete environments for the `main`-level witnesses. -/

/-- A full intercept run: valid `Grep` payload, token present, binary
resolvable, external command succeeds with one result line. -/
def envIntercept : Env :=
  { stdinPayload := some [("tool_name", PyValue.str "Grep"),
      ("tool_input", PyValue.dict [("pattern", PyValue.str "foo")])]
    home := ⟨true, ["home", "u"]⟩
    cwdPath := ⟨true, ["ws"]⟩
    pathExists := fun _ => false
    disableVar := Option.none
    tokenFileExists := true
    mgrepCommand := some ["mgrep"]
    storeOverride := Option.none
    defaultMaxResults := 20
    subprocess := fun _ => SubprocOutcome.completed 0 "hit.go:1:x" "" }

/-- No standard input at all. -/
def envSkip : Env :=
  { envIntercept with stdinPayload := Option.none }

/-- A payload whose `tool_name` is `Write`, with an otherwise valid
`tool_input`. -/
def envSkipName : Env :=
  { envIntercept with
      stdinPayload := some
        [("tool_name", PyValue.str "Write"),
         ("tool_input", PyValue.dict [("pattern", PyValue.str "foo")])] }

/-- A `Grep` payload whose pattern is whitespace-only (scenario 4). -/
def envWsPattern : Env :=
  { envIntercept with
      stdinPayload := some
        [("tool_name", PyValue.str "Grep"),
         ("tool_input", PyValue.dict [("pattern", PyValue.str "   ")])] }

/-- A `Grep` payload whose pattern carries surrounding whitespace. -/
def envPatternPad : Env :=
  { envIntercept with
      stdinPayload := some
        [("tool_name", PyValue.str "Grep"),
         ("tool_input", PyValue.dict [("pattern", PyValue.str " foo ")])]
      subprocess := fun _ => SubprocOutcome.completed 0 "" "" }

/-! C1: the output envelope and exit codes. -/

/-- C1 counterexample: on a completing intercept the emitted document is not
the four-field `HookResponse` object — the code nests those fields under a
single `hookSpecificOutput` key — so the document does not match the
spec-stated shape (while the exit code is the distinguishing 2). -/
theorem claim_C1_counterexample :
    mgrepMain envIntercept
      = .ok ⟨2,
          some (hookJson "MGrep semantic search for 'foo' in .\nhit.go:1:x"),
          some ["mgrep", "search", "-m", "20", "foo"], some "foo"⟩
  ∧ specHookResponseShape
      (hookJson "MGrep semantic search for 'foo' in .\nhit.go:1:x") = false :=
  ⟨by rfl, by rfl⟩

/-- C1 (amended): whenever the pipeline completes, the process writes exactly
one JSON document — a single-field object whose `hookSpecificOutput` value is
the fully filled four-field `HookResponse` shape — and exits with code 2; on
every skip path nothing is emitted and the exit code is the neutral 0 (the
document is emitted exactly when the exit code is not neutral). -/
theorem claim_C1 (env : Env) :
    ∀ result, mgrepMain env = .ok result →
      (result.output = Option.none ↔ result.exitCode = 0)
      ∧ (∀ j, result.output = some j →
          result.exitCode = 2 ∧ wrappedHookShape j = true) := by
  intro result hres
  cases hst : stage1 env with
  | none =>
    rw [mgrepMain_none env hst] at hres
    injection hres with hr
    rw [← hr]
    exact ⟨⟨fun _ => rfl, fun _ => rfl⟩, fun j hj => Option.noConfusion hj⟩
  | some prep =>
    cases hrun : runMgrep (env.subprocess prep.command) with
    | error e =>
      rw [mgrepMain_error env prep e hst hrun] at hres
      exact Except.noConfusion hres
    | ok o =>
      cases o with
      | none =>
        rw [mgrepMain_runNone env prep hst hrun] at hres
        injection hres with hr
        rw [← hr]
        exact ⟨⟨fun _ => rfl, fun _ => rfl⟩, fun j hj => Option.noConfusion hj⟩
      | some out =>
        rw [mgrepMain_intercept env prep out hst hrun] at hres
        injection hres with hr
        rw [← hr]
        refine ⟨⟨fun hc => Option.noConfusion hc,
          fun hc => absurd (show (2 : Int) = 0 from hc) (by decide)⟩,
          fun j hj => ⟨rfl, ?_⟩⟩
        injection hj with hjj
        rw [← hjj]
        rfl

/-- Witness for C1: a skip run exits 0 with no output; the intercept run
exits 2 and its document has the wrapped shape. -/
theorem claim_C1_witness :
    (RunResult.mk 0 Option.none Option.none Option.none).exitCode = 0
  ∧ (RunResult.mk 2
      (some (hookJson "MGrep semantic search for 'foo' in .\nhit.go:1:x"))
      (some ["mgrep", "search", "-m", "20", "foo"]) (some "foo")).exitCode = 2
  ∧ wrappedHookShape
      (hookJson "MGrep semantic search for 'foo' in .\nhit.go:1:x") = true :=
  ⟨(claim_C1 envSkip ⟨0, Option.none, Option.none, Option.none⟩ (by rfl)).1.mp
     rfl,
   ((claim_C1 envIntercept
      ⟨2, some (hookJson "MGrep semantic search for 'foo' in .\nhit.go:1:x"),
       some ["mgrep", "search", "-m", "20", "foo"], some "foo"⟩ (by rfl)).2
      _ rfl).1,
   ((claim_C1 envIntercept
      ⟨2, some (hookJson "MGrep semantic search for 'foo' in .\nhit.go:1:x"),
       some ["mgrep", "search", "-m", "20", "foo"], some "foo"⟩ (by rfl)).2
      _ rfl).2⟩

/-! C5: the pattern guard. -/

/-- C5 counterexample: the pattern `" foo "` (non-empty after stripping, but
not itself trimmed) flows through the pipeline verbatim — the command vector
carries `" foo "`, which is not a whitespace-trimmed string. -/
theorem claim_C5_counterexample :
    mgrepMain envPatternPad
      = .ok ⟨2,
          some (hookJson
            "MGrep semantic search for ' foo ' in .\nNo semantic matches found."),
          some ["mgrep", "search", "-m", "20", " foo "], some " foo "⟩
  ∧ pyStrip " foo " ≠ " foo " :=
  ⟨by rfl, by decide⟩

/-- C5 (amended): whenever the pipeline proceeds past request parsing, the
pattern is a string with non-whitespace content (its stripped form is
non-empty), taken from the payload verbatim rather than trimmed; if the
payload's pattern is absent, not a string, or whitespace-only, the run is the
full skip — exit 0, no output, no external command invoked. -/
theorem claim_C5 (env : Env) :
    (goodPatternB env = false →
      mgrepMain env = .ok ⟨0, Option.none, Option.none, Option.none⟩)
  ∧ (∀ result s, mgrepMain env = .ok result → result.patternUsed = some s →
      tiLookup env "pattern" = some (.str s) ∧ pyStrip s ≠ "")
  ∧ (∀ e, mgrepMain env = Except.error e → goodPatternB env = true) := by
  refine ⟨?_, ?_, ?_⟩
  · intro h
    exact mgrepMain_none env (stage1_none_of_badPattern env h)
  · intro result s hres hsome
    cases hst : stage1 env with
    | none =>
      rw [mgrepMain_none env hst] at hres
      injection hres with hr
      rw [← hr] at hsome
      exact Option.noConfusion hsome
    | some prep =>
      have hp := stage1_pattern env prep hst
      cases hrun : runMgrep (env.subprocess prep.command) with
      | error e =>
        rw [mgrepMain_error env prep e hst hrun] at hres
        exact Except.noConfusion hres
      | ok o =>
        cases o with
        | none =>
          rw [mgrepMain_runNone env prep hst hrun] at hres
          injection hres with hr
          rw [← hr] at hsome
          injection hsome with hss
          rw [← hss]
          exact hp
        | some out =>
          rw [mgrepMain_intercept env prep out hst hrun] at hres
          injection hres with hr
          rw [← hr] at hsome
          injection hsome with hss
          rw [← hss]
          exact hp
  · intro e herr
    cases hst : stage1 env with
    | none =>
      rw [mgrepMain_none env hst] at herr
      exact Except.noConfusion herr
    | some prep =>
      obtain ⟨h1, h2⟩ := stage1_pattern env prep hst
      unfold goodPatternB
      rw [h1]
      simp [h2]

/-- Witness for C5: the whitespace-only pattern skips with nothing invoked;
the padded pattern is carried verbatim with non-empty stripped form. -/
theorem claim_C5_witness :
    mgrepMain envWsPattern = .ok ⟨0, Option.none, Option.none, Option.none⟩
  ∧ tiLookup envPatternPad "pattern" = some (PyValue.str " foo ")
  ∧ pyStrip " foo " ≠ "" :=
  ⟨(claim_C5 envWsPattern).1 (by rfl),
   ((claim_C5 envPatternPad).2.1
      ⟨2, some (hookJson
          "MGrep semantic search for ' foo ' in .\nNo semantic matches found."),
        some ["mgrep", "search", "-m", "20", " foo "], some " foo "⟩
      " foo " (by rfl) rfl).1,
   ((claim_C5 envPatternPad).2.1
      ⟨2, some (hookJson
          "MGrep semantic search for ' foo ' in .\nNo semantic matches found."),
        some ["mgrep", "search", "-m", "20", " foo "], some " foo "⟩
      " foo " (by rfl) rfl).2⟩

/-! C9: the tool-name guard. -/

/-- C9: any payload whose `tool_name` is not the string `"Grep"` makes the
whole run a skip — exit code 0, no output, no external command — regardless
of `tool_input`. -/
theorem claim_C9 (env : Env) (payload : List (String × PyValue))
    (hpay : env.stdinPayload = some payload)
    (hname : toolNameIsGrep payload = false) :
    mgrepMain env = .ok ⟨0, Option.none, Option.none, Option.none⟩ := by
  have hs : stage1 env = Option.none := by
    unfold stage1
    rw [hpay]
    dsimp only
    split
    · rfl
    · rw [if_pos (by simp [hname])]
  exact mgrepMain_none env hs

/-- Witness for C9: a `Write` payload with a perfectly valid `tool_input`
still skips. -/
theorem claim_C9_witness :
    mgrepMain envSkipName = .ok ⟨0, Option.none, Option.none, Option.none⟩ :=
  claim_C9 envSkipName
    [("tool_name", PyValue.str "Write"),
     ("tool_input", PyValue.dict [("pattern", PyValue.str "foo")])]
    (by rfl) (by rfl)
